import Mathlib

/-
  Verification development for the media-planning-agent repository.

  Shallow embedding of the tool registry, schema deriver, dispatch loop,
  session state and tool bodies of the repository, followed by theorems
  about the behavioural claims of its specification.

  Sources embedded:
  - src/mediaplanagent/src/media_agent/tools/base.py
      (Tool.get_schema, ToolRegistry, register_tool, execute_tool,
       create_success_result, create_error_result)
  - src/media-planning-agent/src/media_agent/agent/json_registry.py
      (JsonTool.get_schema, JsonToolRegistry.get_tool_schemas)
  - src/mediaplanagent/src/media_agent/agent/claude_agent.py
      (ClaudeAgent.chat, ClaudeAgent._execute_tool)
  - src/media-planning-agent/src/media_agent/agent/session.py
      (StrategicContext, SessionState.update_strategic_context,
       SessionState.add_conversation_turn)
  - src/media-planning-agent/src/media_agent/tools/mediaplan_tools.py
      (delete_mediaplan)

  Python dictionaries are modelled as association lists over JSON-like
  values; raised exceptions are modelled with Except; in-place mutation is
  modelled by explicit state passing.
-/

namespace MediaAgent

/-- Scalar JSON-like values (container elements). -/
inductive JScalar where
  | s (v : String)
  | b (v : Bool)
  | i (v : Int)
  | null
deriving DecidableEq, Repr

/-- JSON-like values, modelling the Python values that tools, envelopes and
schemas exchange: strings, booleans, integers, None, lists and dicts
(containers hold scalars; the nesting depth the claims exercise). -/
inductive JVal where
  | s (v : String)
  | b (v : Bool)
  | i (v : Int)
  | null
  | arr (vs : List JScalar)
  | obj (kvs : List (String × JScalar))
deriving DecidableEq, Repr

/-- A raised Python exception: str(e) and type(e).__name__. -/
structure PyExc where
  msg : String
  ty : String
deriving DecidableEq, Repr

/-- Association-list lookup, modelling Python dict access (first match). -/
def alookup {α : Type} : List (String × α) → String → Option α
  | [], _ => none
  | kv :: rest, k => if kv.1 = k then some kv.2 else alookup rest k

/-- Dict write d[k] = v: replace the entry in place when the key exists,
append a new entry otherwise (Python dicts preserve insertion order). -/
def assocSet {α : Type} (d : List (String × α)) (k : String) (v : α) :
    List (String × α) :=
  if (alookup d k).isSome then
    d.map (fun kv => if kv.1 = k then (k, v) else kv)
  else d ++ [(k, v)]

/-- A tool result envelope: the Python dict a tool call returns. -/
abbrev Envelope := List (String × JVal)

/-- An envelope carrying a boolean success field
(the ResultEnvelope contract of the spec, validated by
validate_tool_result in tools/base.py). -/
def wellFormedEnvelope (env : Envelope) : Prop :=
  ∃ bv : Bool, alookup env "success" = some (.b bv)

/-- create_success_result from tools/base.py: success flag, message, then
the extra keyword payload. -/
def create_success_result (message : String) (extra : List (String × JVal)) :
    Envelope :=
  [("success", .b true), ("message", .s message)] ++ extra

/-- create_error_result from tools/base.py: success False, message, an
error key only when an error string is supplied, then the extra payload. -/
def create_error_result (message : String) (error : Option String)
    (extra : List (String × JVal)) : Envelope :=
  [("success", .b false), ("message", .s message)]
    ++ (match error with
        | some e => [("error", JVal.s e)]
        | none => [])
    ++ extra

/-! ## Session state (media-planning-agent agent/session.py) -/

/-- The strategic-context fields declared by the StrategicContext dataclass
(session.py lines 15-39). -/
inductive SCField where
  | business_context
  | objectives
  | target_audience
  | budget_info
  | timeline
  | channel_preferences
  | constraints
  | success_metrics
  | industry_context
  | competitive_context
deriving DecidableEq, Repr

/-- StrategicContext: fields hold JSON-like values (Python attributes are
dynamically typed; defaults follow the dataclass field defaults). The
shadow component models instance attributes written by setattr under a
non-field name, shadowing a class attribute such as the to_dict or
from_dict method. -/
structure StrategicContext where
  business_context : JVal := .s ""
  objectives : JVal := .arr []
  target_audience : JVal := .obj []
  budget_info : JVal := .obj []
  timeline : JVal := .obj []
  channel_preferences : JVal := .arr []
  constraints : JVal := .arr []
  success_metrics : JVal := .arr []
  industry_context : JVal := .s ""
  competitive_context : JVal := .s ""
  shadow : List (String × JVal) := []
deriving DecidableEq, Repr

/-- getattr for a declared dataclass field. -/
def getF (sc : StrategicContext) : SCField → JVal
  | .business_context => sc.business_context
  | .objectives => sc.objectives
  | .target_audience => sc.target_audience
  | .budget_info => sc.budget_info
  | .timeline => sc.timeline
  | .channel_preferences => sc.channel_preferences
  | .constraints => sc.constraints
  | .success_metrics => sc.success_metrics
  | .industry_context => sc.industry_context
  | .competitive_context => sc.competitive_context

/-- setattr for a declared dataclass field. -/
def setF (sc : StrategicContext) : SCField → JVal → StrategicContext
  | .business_context, v => { sc with business_context := v }
  | .objectives, v => { sc with objectives := v }
  | .target_audience, v => { sc with target_audience := v }
  | .budget_info, v => { sc with budget_info := v }
  | .timeline, v => { sc with timeline := v }
  | .channel_preferences, v => { sc with channel_preferences := v }
  | .constraints, v => { sc with constraints := v }
  | .success_metrics, v => { sc with success_metrics := v }
  | .industry_context, v => { sc with industry_context := v }
  | .competitive_context, v => { sc with competitive_context := v }

/-- Map an update key to the dataclass field it names, if any. -/
def fieldOfKey : String → Option SCField
  | "business_context" => some .business_context
  | "objectives" => some .objectives
  | "target_audience" => some .target_audience
  | "budget_info" => some .budget_info
  | "timeline" => some .timeline
  | "channel_preferences" => some .channel_preferences
  | "constraints" => some .constraints
  | "success_metrics" => some .success_metrics
  | "industry_context" => some .industry_context
  | "competitive_context" => some .competitive_context
  | _ => none

/-- Non-field attributes defined on the StrategicContext class in
session.py: its two methods. hasattr is true for these as well. -/
def methodAttrs : List String := ["to_dict", "from_dict"]

/-- hasattr(self.strategic_context, key): true for declared fields, for
the class methods, and for instance attributes set earlier by setattr. -/
def hasattrSC (sc : StrategicContext) (k : String) : Bool :=
  (fieldOfKey k).isSome || methodAttrs.contains k || (alookup sc.shadow k).isSome

/-- The in-place list extension of session.py lines 92-95: append each
item of the update list that is not already in the existing list. -/
def listUnion (cur vs : List JScalar) : List JScalar :=
  vs.foldl (fun acc item => if item ∈ acc then acc else acc ++ [item]) cur

/-- One iteration of the update loop of update_strategic_context
(session.py lines 88-97): when hasattr holds, either extend list-typed
attributes with novel items or setattr the new value; otherwise the key
is skipped. -/
def updateStep (sc : StrategicContext) (kv : String × JVal) : StrategicContext :=
  if hasattrSC sc kv.1 then
    match fieldOfKey kv.1 with
    | some f =>
      match kv.2, getF sc f with
      | .arr vs, .arr cur => setF sc f (.arr (listUnion cur vs))
      | v, _ => setF sc f v
    | none =>
      match kv.2, alookup sc.shadow kv.1 with
      | .arr vs, some (.arr cur) =>
          { sc with shadow := assocSet sc.shadow kv.1 (.arr (listUnion cur vs)) }
      | v, _ => { sc with shadow := assocSet sc.shadow kv.1 v }
  else sc

/-- A media plan as far as the session and the deletion tool observe it:
its id and campaign name. -/
structure MediaPlanRec where
  id : String
  campaign_name : String
deriving DecidableEq, Repr

/-- The workspace resource handle: the set of persisted plans, keyed by
plan id (the view the deletion tool manipulates through the SDK). -/
structure Workspace where
  plans : List MediaPlanRec
deriving DecidableEq, Repr

/-- SessionState (session.py): the strategic context accumulator, the
current working plan, the workspace handle and the user-facing
conversation log (timestamps elided; entries are user/agent text pairs). -/
structure SessionState where
  strategic_context : Option StrategicContext := none
  current_mediaplan : Option MediaPlanRec := none
  workspace_manager : Option Workspace := none
  conversation_history : List (String × String) := []
deriving DecidableEq, Repr

/-- SessionState.update_strategic_context (session.py lines 83-99):
create the context on first use, then run the merge loop over the update
mapping in insertion order. -/
def update_strategic_context (ss : SessionState) (ctx : List (String × JVal)) :
    SessionState :=
  let sc0 : StrategicContext := ss.strategic_context.getD {}
  { ss with strategic_context := some (ctx.foldl updateStep sc0) }

/-- SessionState.add_conversation_turn (session.py lines 143-150). -/
def add_conversation_turn (ss : SessionState) (userText agentText : String) :
    SessionState :=
  { ss with conversation_history :=
      ss.conversation_history ++ [(userText, agentText)] }

/-! ## Schema deriver (mediaplanagent tools/base.py, Tool.get_schema) -/

/-- Python type annotations as the deriver distinguishes them. -/
inductive PyType where
  | pstr
  | pint
  | pfloat
  | pbool
  | plist
  | pdict
  | pnone
  | optionalOf (t : PyType)
  | other (n : String)
deriving DecidableEq, Repr

/-- _python_type_to_json_type (base.py lines 80-101): map a Python type to
a JSON schema type name; Optional unwraps to the inner type; anything
unrecognized defaults to string. -/
def pythonTypeToJsonType : PyType → String
  | .pstr => "string"
  | .pint => "integer"
  | .pfloat => "number"
  | .pbool => "boolean"
  | .plist => "array"
  | .pdict => "object"
  | .pnone => "string"
  | .optionalOf t => pythonTypeToJsonType t
  | .other _ => "string"

/-- The display name of an annotation, as used in generated parameter
descriptions. -/
def pyTypeName : PyType → String
  | .pstr => "str"
  | .pint => "int"
  | .pfloat => "float"
  | .pbool => "bool"
  | .plist => "list"
  | .pdict => "dict"
  | .pnone => "NoneType"
  | .optionalOf t => "Optional[" ++ pyTypeName t ++ "]"
  | .other n => n

/-- One declared parameter of a tool function: its name, optional type
annotation, optional default value and whether it is the variadic keyword
parameter. A missing default means the parameter has no default. -/
structure Param where
  name : String
  annot : Option PyType := none
  dflt : Option JVal := none
  varKeyword : Bool := false
deriving DecidableEq, Repr

/-- _get_param_description (base.py lines 103-113): generated placeholder
description, annotated with the type name and with optional when the
parameter has a default. -/
def paramDescription (p : Param) : String :=
  let typeStr := match p.annot with
    | some t => " (" ++ pyTypeName t ++ ")"
    | none => ""
  let optionalStr := match p.dflt with
    | some _ => " (optional)"
    | none => ""
  "Parameter " ++ p.name ++ typeStr ++ optionalStr

/-- The skip test of the get_schema loop (base.py lines 47-54): the two
reserved injected names and any variadic keyword parameter are excluded. -/
def reservedParam (p : Param) : Bool :=
  p.name == "session_state" || p.name == "kwargs" || p.varKeyword

/-- One property of a generated input schema. Introspection-derived
schemas fill only type and description; JSON-registry schemas may also
pass through format, examples, enum and default. -/
structure PropSchema where
  ty : String
  descr : String
  fmt : Option String := none
  examples : Option (List JScalar) := none
  enumVals : Option (List JScalar) := none
  dflt : Option JVal := none
deriving DecidableEq, Repr

/-- A generated tool schema: name, description, object properties and the
required-parameter name list. -/
structure ToolSchema where
  name : String
  description : String
  properties : List (String × PropSchema)
  required : List String
deriving DecidableEq, Repr

/-- Tool.get_schema (base.py lines 38-78): walk the declared parameters in
order, skip the reserved and variadic ones, emit a property per remaining
parameter (annotation defaulting to str) and mark the ones without a
default as required. -/
def introspectSchema (toolName toolDescr : String) (params : List Param) :
    ToolSchema :=
  let kept := params.filter (fun p => !(reservedParam p))
  { name := toolName
    description := toolDescr
    properties := kept.map (fun p => (p.name, { ty := pythonTypeToJsonType (p.annot.getD .pstr), descr := paramDescription p }))
    required := (kept.filter (fun p => p.dflt.isNone)).map Param.name }

/-! ## JSON-registry schemas (media-planning-agent agent/json_registry.py) -/

/-- The per-parameter configuration carried by the JSON tool registry
(JsonTool.get_schema reads type, description, format, examples, enum,
default and the explicit required flag; every key is optional). -/
structure ParamConfig where
  ty : Option String := none
  descr : Option String := none
  fmt : Option String := none
  examples : Option (List JScalar) := none
  enumVals : Option (List JScalar) := none
  dflt : Option JVal := none
  required : Option Bool := none
deriving DecidableEq, Repr

/-- The property JsonTool.get_schema emits for one configured parameter
(json_registry.py lines 165-179). -/
def jsonParamProp (n : String) (pc : ParamConfig) : PropSchema :=
  { ty := pc.ty.getD "string"
    descr := pc.descr.getD ("Parameter " ++ n)
    fmt := pc.fmt
    examples := pc.examples
    enumVals := pc.enumVals
    dflt := pc.dflt }

/-- JsonTool.get_schema (json_registry.py lines 160-193): properties come
from the configured parameters in order; a parameter is listed as
required exactly when its configuration sets required to true (the flag
defaults to false). -/
def jsonGetSchema (toolName toolDescr : String)
    (parameters : List (String × ParamConfig)) : ToolSchema :=
  { name := toolName
    description := toolDescr
    properties := parameters.map (fun kv => (kv.1, jsonParamProp kv.1 kv.2))
    required := (parameters.filter (fun kv => kv.2.required.getD false)).map Prod.fst }

/-! ## Tool descriptors and registry (mediaplanagent tools/base.py) -/

/-- A registered tool as the registry sees it: name, description, the
execute entry point (which may in general raise) and the result of schema
generation (which may raise during introspection). -/
structure ToolD where
  name : String
  description : String
  exec : SessionState → List (String × JVal) → Except PyExc Envelope
  schemaGen : Except PyExc ToolSchema

/-- FunctionTool.execute from the register_tool decorator (base.py lines
206-215): call the wrapped body; catch any exception and convert it into
a success False envelope carrying the message of the exception. -/
def functionToolExecute
    (body : SessionState → List (String × JVal) → Except PyExc Envelope)
    (ss : SessionState) (args : List (String × JVal)) : Envelope :=
  match body ss args with
  | .ok r => r
  | .error e =>
      [("success", .b false),
       ("message", .s ("Tool execution failed: " ++ e.msg)),
       ("error", .s e.msg)]

/-- The FunctionTool the register_tool decorator builds around a body
(base.py lines 199-227): execute never raises, and the schema is derived
by introspection of the original function. -/
def mkFunctionTool (name descr : String) (params : List Param)
    (body : SessionState → List (String × JVal) → Except PyExc Envelope) :
    ToolD :=
  { name := name
    description := descr
    exec := fun ss args => .ok (functionToolExecute body ss args)
    schemaGen := .ok (introspectSchema name descr params) }

/-- ToolRegistry (base.py lines 115-156): the name-to-tool dict and the
category index (category name to list of tool names). -/
structure ToolRegistry where
  tools : List (String × ToolD)
  cats : List (String × List String)

/-- The freshly constructed registry. -/
def emptyRegistry : ToolRegistry := { tools := [], cats := [] }

/-- The category-index update of register: append the name to the list of
the given category unless already present; other entries are unchanged. -/
def addCatName (c n : String) (e : String × List String) :
    String × List String :=
  if e.1 = c then (e.1, if n ∈ e.2 then e.2 else e.2 ++ [n]) else e

/-- ToolRegistry.register (base.py lines 122-135): overwrite by name in
the tool dict (a warning is logged on overwrite), create the category on
first use, then append the name to the category list if absent. -/
def register (reg : ToolRegistry) (t : ToolD) (c : String) : ToolRegistry :=
  let cats0 := if (alookup reg.cats c).isSome then reg.cats else reg.cats ++ [(c, [])]
  { tools := assocSet reg.tools t.name t
    cats := cats0.map (addCatName c t.name) }

/-- ToolRegistry.get_tool (base.py lines 137-139). -/
def getTool (reg : ToolRegistry) (name : String) : Option ToolD :=
  alookup reg.tools name

/-- ToolRegistry.get_tool_names (base.py lines 150-152). -/
def getToolNames (reg : ToolRegistry) : List String :=
  reg.tools.map Prod.fst

/-- ToolRegistry.get_tool_schemas (base.py lines 158-170) and its twin
JsonToolRegistry.get_tool_schemas (json_registry.py lines 107-118):
collect the schema of every tool in registration order, skipping any tool
whose schema generation raises. -/
def getToolSchemas (reg : ToolRegistry) : List ToolSchema :=
  reg.tools.foldl
    (fun acc kv =>
      match kv.2.schemaGen with
      | .ok sch => acc ++ [sch]
      | .error _ => acc) []

/-- execute_tool (base.py lines 259-283): look the tool up by name,
raising ToolNotFoundError when absent; invoke it, wrapping any exception
it lets escape into ToolExecutionError. -/
def execute_tool (reg : ToolRegistry) (toolName : String) (ss : SessionState)
    (args : List (String × JVal)) : Except PyExc Envelope :=
  match getTool reg toolName with
  | none => .error { msg := "Tool " ++ toolName ++ " not found in registry", ty := "ToolNotFoundError" }
  | some t =>
      match t.exec ss args with
      | .ok r => .ok r
      | .error e => .error { msg := "Tool execution failed: " ++ e.msg, ty := "ToolExecutionError" }

/-! ## Dispatch loop (mediaplanagent agent/claude_agent.py) -/

/-- A tool invocation segment of an LLM response: the opaque
call-identifier supplied by the provider, the tool name and the argument
map. -/
structure ToolUse where
  callId : String
  name : String
  args : List (String × JVal)
deriving DecidableEq, Repr

/-- One content block of an LLM response: plain text or a tool
invocation. -/
inductive ContentBlock where
  | text (t : String)
  | toolUse (u : ToolUse)
deriving DecidableEq, Repr

/-- The content of one wire-level history message: plain assistant or
user text, the raw block list of an assistant turn that invoked tools, or
one tool result correlated to its call-identifier. The JSON-serialized
payload string is carried in decoded form. -/
inductive WireContent where
  | plain (t : String)
  | blocks (bs : List ContentBlock)
  | toolResult (callId : String) (payload : Envelope)
deriving DecidableEq, Repr

/-- One message of the wire-level conversation history sent to the LLM. -/
structure WireMsg where
  role : String
  content : WireContent
deriving DecidableEq, Repr

/-- Concatenation of the text blocks of a response, in order (the
response_text accumulation of ClaudeAgent.chat). -/
def extractText (response : List ContentBlock) : String :=
  response.foldl
    (fun acc blk =>
      match blk with
      | .text t => acc ++ t
      | .toolUse _ => acc) ""

/-- The tool invocations of a response, in content order. -/
def extractToolUses (response : List ContentBlock) : List ToolUse :=
  response.filterMap
    (fun blk =>
      match blk with
      | .text _ => none
      | .toolUse u => some u)

/-- ClaudeAgent._execute_tool (claude_agent.py lines 388-431): look the
name up in the registry; when absent, return a success False envelope
naming the missing tool together with the current tool-name list; when
the tool raises, return a success False envelope with message, tool name
and exception type. Total: nothing escapes this boundary. -/
def agentExecuteTool (reg : ToolRegistry) (ss : SessionState) (call : ToolUse) :
    Envelope :=
  match getTool reg call.name with
  | none =>
      [("success", .b false),
       ("error", .s ("Tool " ++ call.name ++ " not found in JSON registry")),
       ("available_tools", .arr ((getToolNames reg).map JScalar.s))]
  | some t =>
      match t.exec ss call.args with
      | .ok r => r
      | .error e =>
          [("success", .b false),
           ("error", .s ("Tool execution failed: " ++ e.msg)),
           ("tool_name", .s call.name),
           ("error_type", .s e.ty)]

/-- The history after appending the user message (chat step 1). -/
def hist1Of (hist0 : List WireMsg) (message : String) : List WireMsg :=
  hist0 ++ [{ role := "user", content := .plain message }]

/-- The tool-result messages appended after executing the invocations of
one response, in invocation order, each correlated by call-identifier
(claude_agent.py lines 307-328). -/
def toolResultMsgs (reg : ToolRegistry) (ss : SessionState)
    (us : List ToolUse) : List WireMsg :=
  us.map (fun u => { role := "user", content := .toolResult u.callId (agentExecuteTool reg ss u) })

/-- The updated history sent on the follow-up request: prior history,
user message, the raw assistant content with its tool invocations, then
one tool-result message per invocation. -/
def hist2Of (llm : List WireMsg → List ContentBlock) (reg : ToolRegistry)
    (ss : SessionState) (hist0 : List WireMsg) (message : String) :
    List WireMsg :=
  hist1Of hist0 message
    ++ [{ role := "assistant", content := .blocks (llm (hist1Of hist0 message)) }]
    ++ toolResultMsgs reg ss (extractToolUses (llm (hist1Of hist0 message)))

/-- The fallback returned when the closing response carries no text. -/
def noTextFallback : String :=
  "I executed some tools but did not provide a text response."

/-- The observable outcome of one chat turn: the returned text, the
wire-level history, the list of request payloads issued to the LLM in
order, the tool invocations actually executed in order, and the session
state with its user-facing conversation log. -/
structure ChatResult where
  returned : String
  history : List WireMsg
  requests : List (List WireMsg)
  executed : List ToolUse
  session : SessionState
deriving Repr

/-- ClaudeAgent.chat (claude_agent.py lines 240-371). The provider is a
function from request history to response blocks; transport failures and
serialization fallbacks are outside the embedded happy path. With no tool
invocation in the first response the turn ends after that single request;
otherwise the invocations are executed in order, their results appended
in order, and exactly one follow-up request is made, of which only the
text blocks are used. -/
def chat (llm : List WireMsg → List ContentBlock) (reg : ToolRegistry)
    (ss : SessionState) (hist0 : List WireMsg) (message : String) :
    ChatResult :=
  let hist1 := hist1Of hist0 message
  let response := llm hist1
  let toolCalls := extractToolUses response
  if toolCalls = [] then
    let responseText := extractText response
    { returned := if responseText = "" then noTextFallback else responseText
      history := if responseText = "" then hist1 else hist1 ++ [{ role := "assistant", content := .plain responseText }]
      requests := [hist1]
      executed := []
      session := if responseText = "" then ss else add_conversation_turn ss message responseText }
  else
    let hist2 := hist2Of llm reg ss hist0 message
    let followUpText := extractText (llm hist2)
    { returned := if followUpText = "" then noTextFallback else followUpText
      history := if followUpText = "" then hist2 else hist2 ++ [{ role := "assistant", content := .plain followUpText }]
      requests := [hist1, hist2]
      executed := toolCalls
      session := if followUpText = "" then ss else add_conversation_turn ss message followUpText }

/-! ## Deletion tool (media-planning-agent tools/mediaplan_tools.py) -/

/-- delete_mediaplan (mediaplan_tools.py lines 309-387): require a loaded
workspace, then require the explicit confirmation flag before touching
anything; only then load and delete the plan through the SDK (the SDK
call is modelled as removal from the workspace plan set, raising when the
plan id is unknown), clearing the current plan when it was the deleted
one. Returns the envelope together with the resulting session state. -/
def delete_mediaplan (ss : SessionState) (media_plan_id : String)
    (confirm_deletion : Bool) : Envelope × SessionState :=
  match ss.workspace_manager with
  | none =>
      (create_error_result "No workspace loaded. Please load a workspace first." none [], ss)
  | some ws =>
    if !confirm_deletion then
      (create_error_result "Media plan deletion requires confirmation for safety. Set confirm_deletion=True to proceed with deletion. This action cannot be undone." none [("requires_confirmation", .b true), ("media_plan_id", .s media_plan_id)], ss)
    else
      match ws.plans.find? (fun p => p.id == media_plan_id) with
      | none =>
          (create_error_result ("Failed to delete media plan: media plan not found: " ++ media_plan_id) (some ("media plan not found: " ++ media_plan_id)) [], ss)
      | some mp =>
          let ws2 : Workspace := { plans := ws.plans.filter (fun p => p.id != media_plan_id) }
          let cur2 : Option MediaPlanRec :=
            match ss.current_mediaplan with
            | some cur => if cur.id = media_plan_id then none else some cur
            | none => none
          let info : JVal := .obj [("media_plan_id", .s media_plan_id), ("campaign_name", .s mp.campaign_name)]
          (create_success_result ("Deleted media plan " ++ mp.campaign_name ++ " successfully.") [("deletion_info", info)], { ss with workspace_manager := some ws2, current_mediaplan := cur2 })

/-! ## Helper lemmas about association lists -/

theorem alookup_append {α : Type} (xs ys : List (String × α)) (k : String) :
    alookup (xs ++ ys) k =
      match alookup xs k with
      | some v => some v
      | none => alookup ys k := by
  induction xs with
  | nil => simp [alookup]
  | cons kv rest ih =>
      by_cases h : kv.1 = k
      · simp [alookup, h]
      · simp [alookup, h, ih]

theorem alookup_isSome_iff_mem {α : Type} (d : List (String × α)) (k : String) :
    (alookup d k).isSome ↔ k ∈ d.map Prod.fst := by
  induction d with
  | nil => simp [alookup]
  | cons kv rest ih =>
      by_cases h : kv.1 = k
      · simp [alookup, h]
      · simp [alookup, h, ih, Ne.symm h]

theorem replace_keys {α : Type} (d : List (String × α)) (k : String) (v : α) :
    (d.map (fun kv => if kv.1 = k then (k, v) else kv)).map Prod.fst =
      d.map Prod.fst := by
  induction d with
  | nil => simp
  | cons kv rest ih =>
      by_cases hk : kv.1 = k
      · simp [hk, ih]
      · simp [hk, ih]

theorem replace_alookup_self {α : Type} (d : List (String × α)) (k : String)
    (v : α) (h : (alookup d k).isSome) :
    alookup (d.map (fun kv => if kv.1 = k then (k, v) else kv)) k = some v := by
  induction d with
  | nil => simp [alookup] at h
  | cons kv rest ih =>
      by_cases hk : kv.1 = k
      · simp [alookup, hk]
      · simp only [alookup, if_neg hk] at h
        simp [alookup, hk, ih h]

theorem replace_alookup_ne {α : Type} (d : List (String × α)) (k k' : String)
    (v : α) (hne : k' ≠ k) :
    alookup (d.map (fun kv => if kv.1 = k then (k, v) else kv)) k' =
      alookup d k' := by
  induction d with
  | nil => simp [alookup]
  | cons kv rest ih =>
      by_cases hk : kv.1 = k
      · have hne' : ¬ k = k' := fun hh => hne hh.symm
        have hkk' : ¬ kv.1 = k' := by rw [hk]; exact hne'
        simp [alookup, hk, hne', hkk', ih]
      · by_cases hk' : kv.1 = k'
        · simp [alookup, hk, hk', hne, ih]
        · simp [alookup, hk, hk', ih]

theorem assocSet_keys {α : Type} (d : List (String × α)) (k : String) (v : α) :
    (assocSet d k v).map Prod.fst =
      if (alookup d k).isSome then d.map Prod.fst else d.map Prod.fst ++ [k] := by
  by_cases h : (alookup d k).isSome
  · rw [assocSet, if_pos h, if_pos h, replace_keys]
  · rw [assocSet, if_neg h, if_neg h]
    simp

theorem assocSet_alookup_self {α : Type} (d : List (String × α)) (k : String)
    (v : α) : alookup (assocSet d k v) k = some v := by
  by_cases h : (alookup d k).isSome
  · rw [assocSet, if_pos h]
    exact replace_alookup_self d k v h
  · rw [assocSet, if_neg h, alookup_append]
    rw [Option.not_isSome_iff_eq_none] at h
    simp [h, alookup]

theorem assocSet_alookup_ne {α : Type} (d : List (String × α)) (k k' : String)
    (v : α) (hne : k' ≠ k) : alookup (assocSet d k v) k' = alookup d k' := by
  by_cases h : (alookup d k).isSome
  · rw [assocSet, if_pos h]
    exact replace_alookup_ne d k k' v hne
  · rw [assocSet, if_neg h, alookup_append]
    cases hcase : alookup d k' with
    | some v' => simp
    | none =>
        have hne' : ¬ k = k' := fun hh => hne hh.symm
        simp [alookup, hne']

/-! ## C1: envelope totality through the registry -/

/-- Claim C1: for every tool registered through the register_tool
decorator, including bodies that raise arbitrary exceptions, invoking the
tool through the registry by name with a session state and an argument
map returns (rather than raises) an envelope with a boolean success
field; when the body raises, the envelope has success false and carries
the message of the exception. The hypothesis hbody is the declared
contract of tool bodies (they return dicts with a boolean success flag)
and constrains only the non-raising case. -/
theorem envelope_totality (reg : ToolRegistry) (toolName toolDescr : String)
    (params : List Param)
    (body : SessionState → List (String × JVal) → Except PyExc Envelope)
    (ss : SessionState) (args : List (String × JVal))
    (hreg : getTool reg toolName = some (mkFunctionTool toolName toolDescr params body))
    (hbody : ∀ r, body ss args = .ok r → wellFormedEnvelope r) :
    ∃ env : Envelope,
      execute_tool reg toolName ss args = .ok env ∧
      wellFormedEnvelope env ∧
      ∀ e, body ss args = .error e →
        alookup env "success" = some (.b false) ∧
        alookup env "error" = some (.s e.msg) := by
  refine ⟨functionToolExecute body ss args, ?_, ?_, ?_⟩
  · simp [execute_tool, hreg, mkFunctionTool]
  · unfold functionToolExecute
    cases hb : body ss args with
    | ok r => exact hbody r hb
    | error e => exact ⟨false, by simp [alookup]⟩
  · intro e he
    unfold functionToolExecute
    rw [he]
    constructor
    · simp [alookup]
    · simp [alookup]

/-- A tool whose body always raises, used to instantiate C1. -/
def boomBody : SessionState → List (String × JVal) → Except PyExc Envelope :=
  fun _ _ => .error { msg := "boom message", ty := "ValueError" }

/-- The registry holding only the always-raising tool. -/
def boomRegistry : ToolRegistry :=
  register emptyRegistry (mkFunctionTool "boom" "always raises" [] boomBody) "general"

/-- Witness for C1 at a registry holding a tool whose body always
raises. -/
theorem envelope_totality_witness :
    ∃ env : Envelope,
      execute_tool boomRegistry "boom" {} [] = .ok env ∧
      wellFormedEnvelope env ∧
      ∀ e, boomBody {} [] = .error e →
        alookup env "success" = some (.b false) ∧
        alookup env "error" = some (.s e.msg) :=
  envelope_totality boomRegistry "boom" "always raises" [] boomBody {} [] rfl
    (fun r h => by simp [boomBody] at h)

/-! ## C5: missing-tool self-correction envelope -/

/-- Claim C5: invoking a name absent from the registry through the
dispatch-loop tool-execution step returns (rather than raises, the
function being total) a success False envelope naming the missing tool
and carrying the full current tool-name list of the registry. -/
theorem missing_tool_envelope (reg : ToolRegistry) (ss : SessionState)
    (call : ToolUse) (habsent : getTool reg call.name = none) :
    alookup (agentExecuteTool reg ss call) "success" = some (.b false) ∧
    alookup (agentExecuteTool reg ss call) "error" =
      some (.s ("Tool " ++ call.name ++ " not found in JSON registry")) ∧
    alookup (agentExecuteTool reg ss call) "available_tools" =
      some (.arr ((getToolNames reg).map JScalar.s)) := by
  unfold agentExecuteTool
  rw [habsent]
  refine ⟨?_, ?_, ?_⟩ <;> simp [alookup]

/-- Witness for C5: an unknown tool name against the empty registry. -/
theorem missing_tool_envelope_witness :
    alookup (agentExecuteTool emptyRegistry {} { callId := "id1", name := "nope", args := [] }) "success" = some (.b false) ∧
    alookup (agentExecuteTool emptyRegistry {} { callId := "id1", name := "nope", args := [] }) "error" =
      some (.s ("Tool " ++ "nope" ++ " not found in JSON registry")) ∧
    alookup (agentExecuteTool emptyRegistry {} { callId := "id1", name := "nope", args := [] }) "available_tools" =
      some (.arr ((getToolNames emptyRegistry).map JScalar.s)) :=
  missing_tool_envelope emptyRegistry {} { callId := "id1", name := "nope", args := [] } rfl

/-! ## C8: partial-failure schema generation -/

/-- Whether schema generation for a tool raises. -/
def schemaFails (t : ToolD) : Bool :=
  match t.schemaGen with
  | .error _ => true
  | .ok _ => false

theorem getToolSchemas_loop (tools : List (String × ToolD))
    (acc : List ToolSchema) :
    tools.foldl
      (fun acc kv =>
        match kv.2.schemaGen with
        | .ok sch => acc ++ [sch]
        | .error _ => acc) acc =
    acc ++ tools.filterMap
      (fun kv =>
        match kv.2.schemaGen with
        | .ok sch => some sch
        | .error _ => none) := by
  induction tools generalizing acc with
  | nil => simp
  | cons kv rest ih =>
      cases hsch : kv.2.schemaGen with
      | ok sch => simp [hsch, ih]
      | error e => simp [hsch, ih]

theorem schema_count (tools : List (String × ToolD)) :
    (tools.filterMap
      (fun kv =>
        match kv.2.schemaGen with
        | .ok sch => some sch
        | .error _ => none)).length
      + (tools.filter (fun kv => schemaFails kv.2)).length = tools.length := by
  induction tools with
  | nil => simp
  | cons kv rest ih =>
      cases hsch : kv.2.schemaGen with
      | ok sch =>
          have hf : schemaFails kv.2 = false := by simp [schemaFails, hsch]
          simp [List.filterMap_cons, List.filter_cons, hsch, hf]
          omega
      | error e =>
          have hf : schemaFails kv.2 = true := by simp [schemaFails, hsch]
          simp [List.filterMap_cons, List.filter_cons, hsch, hf]
          omega

/-- Claim C8: when exactly k of the n registered tools raise during
schema generation, the batch enumeration returns (rather than raises) the
schemas of the other tools in registration order, with count n - k. -/
theorem schema_partial_failure (reg : ToolRegistry) (k : Nat)
    (hk : (reg.tools.filter (fun kv => schemaFails kv.2)).length = k) :
    getToolSchemas reg =
      reg.tools.filterMap
        (fun kv =>
          match kv.2.schemaGen with
          | .ok sch => some sch
          | .error _ => none) ∧
    (getToolSchemas reg).length = reg.tools.length - k := by
  have hloop := getToolSchemas_loop reg.tools []
  have hcount := schema_count reg.tools
  constructor
  · simpa [getToolSchemas] using hloop
  · rw [getToolSchemas, hloop]
    simp only [List.nil_append]
    omega

/-- A tool whose schema generation raises, for the C8 witness. -/
def schemaBoomTool : ToolD :=
  { name := "broken"
    description := "introspection raises"
    exec := fun _ _ => .ok [("success", .b true)]
    schemaGen := .error { msg := "introspection failed", ty := "TypeError" } }

/-- A three-tool registry of which exactly one tool fails schema
generation. -/
def mixedRegistry : ToolRegistry :=
  register
    (register
      (register emptyRegistry (mkFunctionTool "alpha" "first" [] (fun _ _ => .ok [("success", .b true)])) "general")
      schemaBoomTool "general")
    (mkFunctionTool "gamma" "third" [] (fun _ _ => .ok [("success", .b true)])) "general"

/-- Witness for C8 on the three-tool registry with one failing tool:
two schemas come back. -/
theorem schema_partial_failure_witness :
    getToolSchemas mixedRegistry =
      mixedRegistry.tools.filterMap
        (fun kv =>
          match kv.2.schemaGen with
          | .ok sch => some sch
          | .error _ => none) ∧
    (getToolSchemas mixedRegistry).length = mixedRegistry.tools.length - 1 :=
  schema_partial_failure mixedRegistry 1 rfl

/-! ## C7: strategic-context list-union merge -/

/-- The items the union loop actually appends: the update items not
already present, first occurrence only, in update order. -/
def novelOf : List JScalar → List JScalar → List JScalar
  | _, [] => []
  | cur, v :: vs => if v ∈ cur then novelOf cur vs else v :: novelOf (cur ++ [v]) vs

theorem listUnion_eq_append (vs cur : List JScalar) :
    listUnion cur vs = cur ++ novelOf cur vs := by
  induction vs generalizing cur with
  | nil => simp [listUnion, novelOf]
  | cons v vs ih =>
      by_cases hv : v ∈ cur
      · simp [listUnion, novelOf, hv]
        simpa [listUnion] using ih cur
      · simp only [listUnion, novelOf, hv, if_neg hv, List.foldl_cons]
        have := ih (cur ++ [v])
        simp only [listUnion] at this
        simp [hv, this]

theorem novelOf_not_mem (vs cur : List JScalar) (x : JScalar)
    (hx : x ∈ novelOf cur vs) : x ∉ cur := by
  induction vs generalizing cur with
  | nil => simp [novelOf] at hx
  | cons v vs ih =>
      by_cases hv : v ∈ cur
      · rw [novelOf, if_pos hv] at hx
        exact ih cur hx
      · rw [novelOf, if_neg hv] at hx
        rcases List.mem_cons.mp hx with hxv | hxs
        · rw [hxv]; exact hv
        · have := ih (cur ++ [v]) hxs
          intro hmem
          exact this (List.mem_append_left _ hmem)

theorem novelOf_nodup (vs cur : List JScalar) : (novelOf cur vs).Nodup := by
  induction vs generalizing cur with
  | nil => simp [novelOf]
  | cons v vs ih =>
      by_cases hv : v ∈ cur
      · rw [novelOf, if_pos hv]
        exact ih cur
      · rw [novelOf, if_neg hv]
        refine List.nodup_cons.mpr ⟨?_, ih (cur ++ [v])⟩
        intro hmem
        have := novelOf_not_mem vs (cur ++ [v]) v hmem
        exact this (by simp)

theorem novelOf_subset (vs cur : List JScalar) (x : JScalar)
    (hx : x ∈ novelOf cur vs) : x ∈ vs := by
  induction vs generalizing cur with
  | nil => simp [novelOf] at hx
  | cons v vs ih =>
      by_cases hv : v ∈ cur
      · rw [novelOf, if_pos hv] at hx
        exact List.mem_cons_of_mem v (ih cur hx)
      · rw [novelOf, if_neg hv] at hx
        rcases List.mem_cons.mp hx with hxv | hxs
        · rw [hxv]; exact List.mem_cons_self v vs
        · exact List.mem_cons_of_mem v (ih (cur ++ [v]) hxs)

theorem mem_append_novelOf (vs cur : List JScalar) (x : JScalar)
    (hx : x ∈ vs) : x ∈ cur ++ novelOf cur vs := by
  induction vs generalizing cur with
  | nil => simp at hx
  | cons v vs ih =>
      by_cases hv : v ∈ cur
      · rw [novelOf, if_pos hv]
        rcases List.mem_cons.mp hx with hxv | hxs
        · exact List.mem_append_left _ (hxv ▸ hv)
        · exact ih cur hxs
      · rw [novelOf, if_neg hv]
        rcases List.mem_cons.mp hx with hxv | hxs
        · rw [hxv]; simp
        · have := ih (cur ++ [v]) hxs
          simp only [List.mem_append, List.mem_cons] at this ⊢
          rcases this with (hc | hnv) | hrest
          · exact Or.inl hc
          · exact Or.inr (Or.inl (by simpa using hnv))
          · exact Or.inr (Or.inr hrest)

theorem getF_setF_same (sc : StrategicContext) (f : SCField) (v : JVal) :
    getF (setF sc f v) f = v := by
  cases f <;> rfl

/-- Claim C7: merging an update whose value for a list-valued field is a
list yields the union that preserves the existing order and appends only
the novel items, with no duplicate among the appended items; an update
with a scalar string value overwrites the field; and the concrete
scenario of merging objectives awareness then awareness-and-reach yields
exactly awareness then reach. -/
theorem strategic_merge_union :
    (∀ (sc : StrategicContext) (k : String) (f : SCField)
        (cur vs : List JScalar),
      fieldOfKey k = some f → getF sc f = .arr cur →
        getF (updateStep sc (k, .arr vs)) f = .arr (listUnion cur vs)) ∧
    (∀ cur vs : List JScalar,
      listUnion cur vs = cur ++ novelOf cur vs ∧
      (novelOf cur vs).Nodup ∧
      (∀ x ∈ novelOf cur vs, x ∉ cur) ∧
      (∀ x ∈ novelOf cur vs, x ∈ vs) ∧
      (∀ x ∈ vs, x ∈ cur ++ novelOf cur vs)) ∧
    (∀ (sc : StrategicContext) (k : String) (f : SCField) (v : String),
      fieldOfKey k = some f →
        getF (updateStep sc (k, .s v)) f = .s v) ∧
    ((update_strategic_context
        (update_strategic_context {} [("objectives", .arr [.s "awareness"])])
        [("objectives", .arr [.s "awareness", .s "reach"])]).strategic_context.map
          (fun sc => getF sc .objectives)
      = some (.arr [.s "awareness", .s "reach"])) := by
  refine ⟨?_, ?_, ?_, ?_⟩
  · intro sc k f cur vs hk hget
    have hattr : hasattrSC sc k = true := by
      simp [hasattrSC, hk]
    rw [updateStep]
    simp only [hattr, if_true, hk, hget]
    exact getF_setF_same sc f (.arr (listUnion cur vs))
  · intro cur vs
    exact ⟨listUnion_eq_append vs cur, novelOf_nodup vs cur,
      fun x hx => novelOf_not_mem vs cur x hx,
      fun x hx => novelOf_subset vs cur x hx,
      fun x hx => mem_append_novelOf vs cur x hx⟩
  · intro sc k f v hk
    have hattr : hasattrSC sc k = true := by
      simp [hasattrSC, hk]
    rw [updateStep]
    simp only [hattr, if_true, hk]
    exact getF_setF_same sc f (.s v)
  · rfl

/-- Witness for C7: the list-merge branch applied at the objectives field
of a fresh context. -/
theorem strategic_merge_union_witness :
    getF (updateStep {} ("objectives", .arr [.s "a"])) .objectives =
      .arr (listUnion [] [.s "a"]) :=
  strategic_merge_union.1 {} "objectives" .objectives [] [.s "a"] rfl rfl

/-! ## C10: which keys a strategic-context merge can touch -/

/-- Counterexample to claim C10 as stated: the key to_dict is not one of
the fixed named fields of StrategicContext, yet merging it is not a
no-op — hasattr is true for the class method to_dict, so the loop
setattrs the value onto the instance (shadowing the method) instead of
ignoring the key. The claim predicts an unchanged default context. -/
theorem unknown_key_ignored_cex :
    (update_strategic_context {} [("to_dict", JVal.s "boom")]).strategic_context
        = some { shadow := [("to_dict", JVal.s "boom")] } ∧
    (update_strategic_context {} [("to_dict", JVal.s "boom")]).strategic_context
        ≠ some ({} : StrategicContext) := by
  constructor
  · rfl
  · decide

/-- Claim C10 as amended: a key of the update mapping matching no
attribute of the strategic-context object (no fixed field, no class
method such as to_dict or from_dict, no previously written instance
attribute) is silently ignored — the merge raises no error and leaves
the context unchanged; a key naming an unshadowed class method, however,
is assigned as an instance attribute, so the merge can modify non-field
attributes as well. -/
theorem unknown_key_frame_amended :
    (∀ (sc : StrategicContext) (upd : List (String × JVal)),
      (∀ kv ∈ upd, hasattrSC sc kv.1 = false) →
        upd.foldl updateStep sc = sc) ∧
    (∀ (sc : StrategicContext) (k : String) (v : JVal),
      fieldOfKey k = none → methodAttrs.contains k = true →
      alookup sc.shadow k = none →
        updateStep sc (k, v) = { sc with shadow := assocSet sc.shadow k v }) := by
  constructor
  · intro sc upd h
    induction upd with
    | nil => rfl
    | cons kv rest ih =>
        have hkv : hasattrSC sc kv.1 = false := h kv (List.mem_cons_self kv rest)
        have hstep : updateStep sc kv = sc := by
          rw [updateStep, hkv]
          simp
        rw [List.foldl_cons, hstep]
        exact ih (fun kv' hm => h kv' (List.mem_cons_of_mem kv hm))
  · intro sc k v hfield hmethod hshadow
    have hattr : hasattrSC sc k = true := by
      have : k ∈ methodAttrs := by
        simpa using hmethod
      simp [hasattrSC, this]
    rw [updateStep]
    simp only [hattr, if_true, hfield]
    cases v with
    | s w => simp [hshadow]
    | b w => simp [hshadow]
    | i w => simp [hshadow]
    | null => simp [hshadow]
    | arr ws => simp [hshadow]
    | obj kvs => simp [hshadow]

/-- Witness for C10 as amended: a key unknown to the context object is
ignored, and the method-named key to_dict is written to the instance. -/
theorem unknown_key_frame_amended_witness :
    ([(("totally_unknown" : String), JVal.s "x")].foldl updateStep {} = ({} : StrategicContext)) ∧
    updateStep {} ("to_dict", JVal.s "boom") =
      { ({} : StrategicContext) with shadow := assocSet ([] : List (String × JVal)) "to_dict" (JVal.s "boom") } :=
  ⟨unknown_key_frame_amended.1 {} [("totally_unknown", JVal.s "x")]
      (fun kv hm => by
        rcases List.mem_singleton.mp hm with h
        rw [h]
        rfl),
   unknown_key_frame_amended.2 {} "to_dict" (JVal.s "boom") rfl rfl rfl⟩

/-! ## C6: the destructive-deletion confirmation gate -/

/-- Counterexample to claim C6 as stated: with no workspace loaded, a
deletion call without the confirmation flag hits the workspace guard
first and returns a success False envelope without any
requires_confirmation marker (the claim requires the marker on every
unconfirmed call). No deletion happens either way. -/
theorem confirmation_gate_cex :
    alookup (delete_mediaplan {} "mp_001" false).1 "requires_confirmation" = none ∧
    alookup (delete_mediaplan {} "mp_001" false).1 "success" = some (.b false) ∧
    (delete_mediaplan {} "mp_001" false).2 = ({} : SessionState) := by
  refine ⟨rfl, rfl, rfl⟩

/-- Claim C6 as amended: when a workspace is loaded, a deletion call
without the explicit confirmation flag returns success False with a
requires_confirmation marker and the echoed plan id, and performs no
deletion (session state, workspace and current plan unchanged); with no
workspace loaded it returns success False without the marker and still
changes nothing. -/
theorem confirmation_gate_amended :
    (∀ (ss : SessionState) (ws : Workspace) (mpid : String),
      ss.workspace_manager = some ws →
        alookup (delete_mediaplan ss mpid false).1 "success" = some (.b false) ∧
        alookup (delete_mediaplan ss mpid false).1 "requires_confirmation" = some (.b true) ∧
        alookup (delete_mediaplan ss mpid false).1 "media_plan_id" = some (.s mpid) ∧
        (delete_mediaplan ss mpid false).2 = ss) ∧
    (∀ (ss : SessionState) (mpid : String),
      ss.workspace_manager = none →
        alookup (delete_mediaplan ss mpid false).1 "success" = some (.b false) ∧
        alookup (delete_mediaplan ss mpid false).1 "requires_confirmation" = none ∧
        (delete_mediaplan ss mpid false).2 = ss) := by
  constructor
  · intro ss ws mpid hws
    rw [delete_mediaplan]
    simp only [hws]
    refine ⟨?_, ?_, ?_, rfl⟩ <;> rfl
  · intro ss mpid hws
    rw [delete_mediaplan]
    simp only [hws]
    refine ⟨?_, ?_, ?_⟩ <;> first | rfl | trivial

/-- A session with one loaded plan, for the C6 witness. -/
def gateSession : SessionState :=
  { workspace_manager := some { plans := [{ id := "mp_001", campaign_name := "Spring" }] },
    current_mediaplan := some { id := "mp_001", campaign_name := "Spring" } }

/-- Witness for C6 as amended, at a session with a loaded workspace and at
a fresh session without one. -/
theorem confirmation_gate_amended_witness :
    (alookup (delete_mediaplan gateSession "mp_001" false).1 "success" = some (.b false) ∧
     alookup (delete_mediaplan gateSession "mp_001" false).1 "requires_confirmation" = some (.b true) ∧
     alookup (delete_mediaplan gateSession "mp_001" false).1 "media_plan_id" = some (.s "mp_001") ∧
     (delete_mediaplan gateSession "mp_001" false).2 = gateSession) ∧
    (alookup (delete_mediaplan {} "mp_002" false).1 "success" = some (.b false) ∧
     alookup (delete_mediaplan {} "mp_002" false).1 "requires_confirmation" = none ∧
     (delete_mediaplan {} "mp_002" false).2 = ({} : SessionState)) :=
  ⟨confirmation_gate_amended.1 gateSession { plans := [{ id := "mp_001", campaign_name := "Spring" }] } "mp_001" rfl,
   confirmation_gate_amended.2 {} "mp_002" rfl⟩

/-! ## C3: required-ness in generated schemas -/

/-- A JSON-registry parameter configuration carrying no keys at all: the
parameter has no default value and no explicit required flag. -/
def bareParamConfig : ParamConfig := {}

/-- Counterexample to claim C3 as stated: for a JSON-registry tool whose
parameter configuration has no default value (and no explicit required
flag), the parameter does not appear in the required list — JsonTool
required-ness comes from the explicit required flag, not from the absence
of a default, so the stated iff fails on this registered tool. -/
theorem json_required_flag_cex :
    ¬ (("p" ∈ (jsonGetSchema "tool_x" "a json tool" [("p", bareParamConfig)]).required) ↔
        bareParamConfig.dflt = none) := by
  decide

/-- Claim C3 as amended: for every tool whose schema is derived by
introspection (the register_tool path), a parameter name appears in the
required list iff some declared parameter of that name is non-reserved,
non-variadic and has no default (defaults, None included, make it
optional), and the two reserved injected names never appear among the
schema properties; for JSON-registry tools the required list is exactly
the configured parameters whose required flag is true, independent of
defaults. -/
theorem required_iff_no_default_amended :
    (∀ (toolName toolDescr : String) (params : List Param) (n : String),
      n ∈ (introspectSchema toolName toolDescr params).required ↔
        ∃ p, p ∈ params ∧ p.name = n ∧ reservedParam p = false ∧ p.dflt = none) ∧
    (∀ (toolName toolDescr : String) (params : List Param),
      ∀ pr ∈ (introspectSchema toolName toolDescr params).properties,
        pr.1 ≠ "session_state" ∧ pr.1 ≠ "kwargs") ∧
    (∀ (toolName toolDescr : String) (parameters : List (String × ParamConfig)),
      (jsonGetSchema toolName toolDescr parameters).required =
        (parameters.filter (fun kv => kv.2.required.getD false)).map Prod.fst) := by
  refine ⟨?_, ?_, ?_⟩
  · intro toolName toolDescr params n
    simp only [introspectSchema, List.mem_map, List.mem_filter]
    constructor
    · rintro ⟨p, ⟨⟨hp, hres⟩, hdflt⟩, hname⟩
      exact ⟨p, hp, hname, by simpa using hres, by simpa using hdflt⟩
    · rintro ⟨p, hp, hname, hres, hdflt⟩
      exact ⟨p, ⟨⟨hp, by simpa using hres⟩, by simpa using hdflt⟩, hname⟩
  · intro toolName toolDescr params pr hpr
    simp only [introspectSchema, List.mem_map, List.mem_filter] at hpr
    rcases hpr with ⟨p, ⟨hp, hres⟩, hpr⟩
    rw [← hpr]
    have hres' : reservedParam p = false := by simpa using hres
    simp only [reservedParam, Bool.or_eq_false_iff, beq_eq_false_iff_ne, ne_eq] at hres'
    exact ⟨hres'.1.1, hres'.1.2⟩
  · intro toolName toolDescr parameters
    rfl

/-- A declared parameter list exercising the introspection rule: one
mandatory parameter, one with a None default, the reserved session_state
name and a variadic kwargs. -/
def demoParams : List Param :=
  [{ name := "session_state" },
   { name := "campaign_name", annot := some .pstr },
   { name := "product_name", annot := some (.optionalOf .pstr), dflt := some .null },
   { name := "kwargs", varKeyword := true }]

/-- Witness for C3 as amended: on the demo parameter list, the
no-default parameter campaign_name is in the required list. -/
theorem required_iff_no_default_amended_witness :
    "campaign_name" ∈ (introspectSchema "create" "demo" demoParams).required :=
  (required_iff_no_default_amended.1 "create" "demo" demoParams "campaign_name").mpr
    ⟨{ name := "campaign_name", annot := some PyType.pstr }, by decide, rfl, by decide, rfl⟩

/-! ## C2: the two-round dispatch contract -/

/-- Claim C2: when the first response of a turn carries only text, the
turn issues exactly that one request, executes nothing, and commits the
text as the assistant turn; when the first response carries at least one
tool invocation, exactly one additional request is issued (with the
updated history), only the invocations of the first response are
executed, and only the text segments of the second response become the
returned text. -/
theorem two_round_dispatch (llm : List WireMsg → List ContentBlock)
    (reg : ToolRegistry) (ss : SessionState) (hist0 : List WireMsg)
    (message : String) :
    (extractToolUses (llm (hist1Of hist0 message)) = [] →
      (chat llm reg ss hist0 message).requests = [hist1Of hist0 message] ∧
      (chat llm reg ss hist0 message).executed = [] ∧
      (extractText (llm (hist1Of hist0 message)) ≠ "" →
        (chat llm reg ss hist0 message).history =
          hist1Of hist0 message ++ [{ role := "assistant", content := .plain (extractText (llm (hist1Of hist0 message))) }])) ∧
    (extractToolUses (llm (hist1Of hist0 message)) ≠ [] →
      (chat llm reg ss hist0 message).requests =
        [hist1Of hist0 message, hist2Of llm reg ss hist0 message] ∧
      (chat llm reg ss hist0 message).executed =
        extractToolUses (llm (hist1Of hist0 message)) ∧
      (extractText (llm (hist2Of llm reg ss hist0 message)) ≠ "" →
        (chat llm reg ss hist0 message).returned =
          extractText (llm (hist2Of llm reg ss hist0 message)))) := by
  constructor
  · intro h
    refine ⟨?_, ?_, ?_⟩
    · simp [chat, h]
    · simp [chat, h]
    · intro htxt
      simp [chat, h, htxt]
  · intro h
    refine ⟨?_, ?_, ?_⟩
    · simp [chat, h]
    · simp [chat, h]
    · intro htxt
      simp [chat, h, htxt]

/-- A deterministic provider for instantiating the dispatch claims: the
first request (a one-message history) answers with two tool invocations
around a text block; any longer history gets a plain text answer. -/
def demoLLM : List WireMsg → List ContentBlock := fun h =>
  if h.length ≤ 1 then
    [.toolUse { callId := "id_a", name := "alpha", args := [] },
     .text "working",
     .toolUse { callId := "id_b", name := "beta", args := [] }]
  else [.text "done"]

/-- Witness for C2: with the demo provider, a turn with tool invocations
issues exactly the two requests and returns the text of the second
response. -/
theorem two_round_dispatch_witness :
    (chat demoLLM emptyRegistry {} [] "hello").requests =
      [hist1Of [] "hello", hist2Of demoLLM emptyRegistry {} [] "hello"] ∧
    (chat demoLLM emptyRegistry {} [] "hello").returned =
      extractText (demoLLM (hist2Of demoLLM emptyRegistry {} [] "hello")) :=
  ⟨((two_round_dispatch demoLLM emptyRegistry {} [] "hello").2 (by decide)).1,
   ((two_round_dispatch demoLLM emptyRegistry {} [] "hello").2 (by decide)).2.2 (by decide)⟩

/-! ## C4: tool execution and result ordering -/

/-- Claim C4: the tool invocations of a response are executed in content
order, and the wire-level history receives one tool-result entry per
invocation, in that same order, each correlated to the call-identifier of
its originating invocation and carrying the envelope produced for it. -/
theorem tool_result_ordering (llm : List WireMsg → List ContentBlock)
    (reg : ToolRegistry) (ss : SessionState) (hist0 : List WireMsg)
    (message : String)
    (h : extractToolUses (llm (hist1Of hist0 message)) ≠ []) :
    (chat llm reg ss hist0 message).executed =
      extractToolUses (llm (hist1Of hist0 message)) ∧
    ∃ tail,
      (chat llm reg ss hist0 message).history =
        hist1Of hist0 message
          ++ [{ role := "assistant", content := .blocks (llm (hist1Of hist0 message)) }]
          ++ (extractToolUses (llm (hist1Of hist0 message))).map
              (fun u => { role := "user", content := .toolResult u.callId (agentExecuteTool reg ss u) })
          ++ tail := by
  constructor
  · simp [chat, h]
  · by_cases htxt : extractText (llm (hist2Of llm reg ss hist0 message)) = ""
    · refine ⟨[], ?_⟩
      have hh : (chat llm reg ss hist0 message).history = hist2Of llm reg ss hist0 message := by
        simp [chat, h, htxt]
      rw [hh]
      simp [hist2Of, toolResultMsgs]
    · refine ⟨[{ role := "assistant", content := .plain (extractText (llm (hist2Of llm reg ss hist0 message))) }], ?_⟩
      have hh : (chat llm reg ss hist0 message).history = hist2Of llm reg ss hist0 message ++ [{ role := "assistant", content := .plain (extractText (llm (hist2Of llm reg ss hist0 message))) }] := by
        simp [chat, h, htxt]
      rw [hh]
      simp [hist2Of, toolResultMsgs]

/-- Witness for C4 with the demo provider: both invocations appear as
correlated results in content order. -/
theorem tool_result_ordering_witness :
    (chat demoLLM emptyRegistry {} [] "order").executed =
      extractToolUses (demoLLM (hist1Of [] "order")) ∧
    ∃ tail,
      (chat demoLLM emptyRegistry {} [] "order").history =
        hist1Of [] "order"
          ++ [{ role := "assistant", content := .blocks (demoLLM (hist1Of [] "order")) }]
          ++ (extractToolUses (demoLLM (hist1Of [] "order"))).map
              (fun u => { role := "user", content := .toolResult u.callId (agentExecuteTool emptyRegistry {} u) })
          ++ tail :=
  tool_result_ordering demoLLM emptyRegistry {} [] "order" (by decide)

/-! ## C9: registry registration invariants -/

/-- Well-formedness of a registry: unique tool names, unique category
keys, and every category list duplicate-free with all its names present
in the tool dict. -/
def RegWF (reg : ToolRegistry) : Prop :=
  (reg.tools.map Prod.fst).Nodup ∧
  (reg.cats.map Prod.fst).Nodup ∧
  ∀ c l, alookup reg.cats c = some l →
    l.Nodup ∧ ∀ n ∈ l, (alookup reg.tools n).isSome

/-- A registry built by a sequence of register calls on the fresh one. -/
def buildRegistry (ops : List (ToolD × String)) : ToolRegistry :=
  ops.foldl (fun r p => register r p.1 p.2) emptyRegistry

theorem addCatName_keys (cats : List (String × List String)) (c n : String) :
    (cats.map (addCatName c n)).map Prod.fst = cats.map Prod.fst := by
  induction cats with
  | nil => simp
  | cons e rest ih =>
      by_cases he : e.1 = c
      · simp [addCatName, he, ih]
      · simp [addCatName, he, ih]

theorem alookup_map_addCatName_self (cats : List (String × List String))
    (c n : String) :
    alookup (cats.map (addCatName c n)) c =
      (alookup cats c).map (fun lst => if n ∈ lst then lst else lst ++ [n]) := by
  induction cats with
  | nil => simp [alookup]
  | cons e rest ih =>
      by_cases he : e.1 = c
      · simp [alookup, addCatName, he]
      · simp [alookup, addCatName, he, ih]

theorem alookup_map_addCatName_ne (cats : List (String × List String))
    (c c' n : String) (hne : c' ≠ c) :
    alookup (cats.map (addCatName c n)) c' = alookup cats c' := by
  induction cats with
  | nil => simp [alookup]
  | cons e rest ih =>
      by_cases he : e.1 = c
      · have hcc : ¬ c = c' := fun hh => hne hh.symm
        simp [alookup, addCatName, he, hcc, hne, ih]
      · by_cases he' : e.1 = c'
        · simp [alookup, addCatName, he, he', hne]
        · simp [alookup, addCatName, he, he', ih]

theorem map_addCatName_notmem (cats : List (String × List String))
    (c n : String) (h : c ∉ cats.map Prod.fst) :
    cats.map (addCatName c n) = cats := by
  induction cats with
  | nil => simp
  | cons e rest ih =>
      simp only [List.map_cons, List.mem_cons, not_or] at h
      have he : ¬ e.1 = c := fun hh => h.1 hh.symm
      simp [addCatName, he, ih h.2]

theorem map_addCatName_id (cats : List (String × List String))
    (c n : String) (l : List String) (hnd : (cats.map Prod.fst).Nodup)
    (hl : alookup cats c = some l) (hn : n ∈ l) :
    cats.map (addCatName c n) = cats := by
  induction cats with
  | nil => simp [alookup] at hl
  | cons e rest ih =>
      simp only [List.map_cons, List.nodup_cons] at hnd
      by_cases he : e.1 = c
      · rw [alookup, if_pos he] at hl
        have hle : e.2 = l := Option.some.inj hl
        have hcrest : c ∉ rest.map Prod.fst := he ▸ hnd.1
        have hmem2 : n ∈ e.2 := by rw [hle]; exact hn
        have hhead : addCatName c n e = e := by
          rw [addCatName, if_pos he, if_pos hmem2]
        rw [List.map_cons, hhead, map_addCatName_notmem rest c n hcrest]
      · rw [alookup, if_neg he] at hl
        simp [addCatName, he, ih hnd.2 hl]

theorem assocSet_isSome_mono {α : Type} (d : List (String × α))
    (k k' : String) (v : α) (h : (alookup d k').isSome) :
    (alookup (assocSet d k v) k').isSome := by
  by_cases hk : k' = k
  · rw [hk, assocSet_alookup_self]
    rfl
  · rw [assocSet_alookup_ne d k k' v hk]
    exact h

theorem alookup_cats0_ne (cats : List (String × List String)) (c c' : String)
    (hne : c' ≠ c) :
    alookup (if (alookup cats c).isSome then cats else cats ++ [(c, [])]) c' =
      alookup cats c' := by
  by_cases h : (alookup cats c).isSome
  · rw [if_pos h]
  · rw [if_neg h, alookup_append]
    cases hc : alookup cats c' with
    | some l => simp
    | none =>
        have : ¬ c = c' := fun hh => hne hh.symm
        simp [alookup, this]

/-- register preserves registry well-formedness. -/
theorem register_WF (reg : ToolRegistry) (t : ToolD) (c : String)
    (hwf : RegWF reg) : RegWF (register reg t c) := by
  obtain ⟨htools, hcats, hlists⟩ := hwf
  have hcats0keys :
      (if (alookup reg.cats c).isSome then reg.cats else reg.cats ++ [(c, [])]).map Prod.fst =
        if (alookup reg.cats c).isSome then reg.cats.map Prod.fst else reg.cats.map Prod.fst ++ [c] := by
    by_cases h : (alookup reg.cats c).isSome
    · rw [if_pos h, if_pos h]
    · rw [if_neg h, if_neg h]
      simp
  refine ⟨?_, ?_, ?_⟩
  · simp only [register]
    rw [assocSet_keys]
    by_cases h : (alookup reg.tools t.name).isSome
    · rw [if_pos h]
      exact htools
    · rw [if_neg h]
      have hmem : t.name ∉ reg.tools.map Prod.fst := by
        intro hmem
        exact h ((alookup_isSome_iff_mem reg.tools t.name).mpr hmem)
      simp [List.nodup_append, htools, hmem]
  · simp only [register]
    rw [addCatName_keys, hcats0keys]
    by_cases h : (alookup reg.cats c).isSome
    · rw [if_pos h]
      exact hcats
    · rw [if_neg h]
      have hmem : c ∉ reg.cats.map Prod.fst := by
        intro hmem
        exact h ((alookup_isSome_iff_mem reg.cats c).mpr hmem)
      simp [List.nodup_append, hcats, hmem]
  · intro c' l' hl'
    simp only [register] at hl'
    by_cases hc' : c' = c
    · rw [hc', alookup_map_addCatName_self] at hl'
      have hbase :
          ∃ l0, alookup (if (alookup reg.cats c).isSome then reg.cats else reg.cats ++ [(c, [])]) c = some l0 ∧
            l0.Nodup ∧ ∀ n ∈ l0, (alookup reg.tools n).isSome := by
        by_cases h : (alookup reg.cats c).isSome
        · rw [if_pos h]
          rcases Option.isSome_iff_exists.mp h with ⟨l0, hl0⟩
          exact ⟨l0, hl0, hlists c l0 hl0⟩
        · rw [if_neg h, alookup_append]
          rw [Option.not_isSome_iff_eq_none] at h
          refine ⟨[], ?_, by simp, by simp⟩
          simp [h, alookup]
      rcases hbase with ⟨l0, hl0, hl0nd, hl0mem⟩
      rw [hl0] at hl'
      simp only [Option.map_some'] at hl'
      have hl'eq : (if t.name ∈ l0 then l0 else l0 ++ [t.name]) = l' :=
        Option.some.inj hl'
      rw [← hl'eq]
      by_cases hmem : t.name ∈ l0
      · rw [if_pos hmem]
        refine ⟨hl0nd, ?_⟩
        intro n hn
        exact assocSet_isSome_mono reg.tools t.name n t (hl0mem n hn)
      · rw [if_neg hmem]
        refine ⟨by simp [List.nodup_append, hl0nd, hmem], ?_⟩
        intro n hn
        rcases List.mem_append.mp hn with hn0 | hn1
        · exact assocSet_isSome_mono reg.tools t.name n t (hl0mem n hn0)
        · rw [List.mem_singleton.mp hn1]
          show (alookup (assocSet reg.tools t.name t) t.name).isSome = true
          rw [assocSet_alookup_self]
          rfl
    · rw [alookup_map_addCatName_ne _ _ _ _ hc', alookup_cats0_ne _ _ _ hc'] at hl'
      rcases hlists c' l' hl' with ⟨hnd, hmem⟩
      refine ⟨hnd, ?_⟩
      intro n hn
      exact assocSet_isSome_mono reg.tools t.name n t (hmem n hn)

/-- Claim C9: registering a name already present in the tool dict and in
the category list overwrites the descriptor without changing the name
list or the category index; and every registry reachable by register
calls from the fresh one satisfies the invariant that tool names are
unique, category lists are duplicate-free and every name in any category
list exists in the tool dict. -/
theorem registry_invariants :
    (∀ (reg : ToolRegistry) (t : ToolD) (c : String) (l : List String),
      RegWF reg → alookup reg.cats c = some l → t.name ∈ l →
      (alookup reg.tools t.name).isSome →
        getTool (register reg t c) t.name = some t ∧
        (register reg t c).tools.map Prod.fst = reg.tools.map Prod.fst ∧
        (register reg t c).cats = reg.cats) ∧
    (∀ ops : List (ToolD × String), RegWF (buildRegistry ops)) := by
  constructor
  · intro reg t c l hwf hcat hmem hsome
    refine ⟨?_, ?_, ?_⟩
    · simp only [register, getTool]
      exact assocSet_alookup_self reg.tools t.name t
    · simp only [register]
      rw [assocSet_keys, if_pos hsome]
    · simp only [register]
      have hcs : (alookup reg.cats c).isSome = true := by
        rw [hcat]; rfl
      rw [if_pos hcs]
      exact map_addCatName_id reg.cats c t.name l hwf.2.1 hcat hmem
  · intro ops
    have hfold : ∀ (l : List (ToolD × String)) (r : ToolRegistry),
        RegWF r → RegWF (l.foldl (fun r p => register r p.1 p.2) r) := by
      intro l
      induction l with
      | nil => intro r hr; exact hr
      | cons p rest ih =>
          intro r hr
          exact ih (register r p.1 p.2) (register_WF r p.1 p.2 hr)
    refine hfold ops emptyRegistry ?_
    refine ⟨by simp [emptyRegistry], by simp [emptyRegistry], ?_⟩
    intro c l hl
    simp [emptyRegistry, alookup] at hl

/-- Tools for the C9 witness: two descriptors under the same name. -/
def toolA1 : ToolD :=
  mkFunctionTool "alpha" "first version" [] (fun _ _ => .ok [("success", .b true)])

/-- The second descriptor registered under the name alpha. -/
def toolA2 : ToolD :=
  mkFunctionTool "alpha" "second version" [] (fun _ _ => .ok [("success", .b false)])

/-- The one-tool registry the witness re-registers into. -/
def regOne : ToolRegistry := buildRegistry [(toolA1, "general")]

/-- Witness for C9: re-registering the name alpha in the same category
overwrites the descriptor and leaves the name list and category index
unchanged. -/
theorem registry_invariants_witness :
    getTool (register regOne toolA2 "general") "alpha" = some toolA2 ∧
    (register regOne toolA2 "general").tools.map Prod.fst = regOne.tools.map Prod.fst ∧
    (register regOne toolA2 "general").cats = regOne.cats :=
  registry_invariants.1 regOne toolA2 "general" ["alpha"]
    (registry_invariants.2 [(toolA1, "general")]) rfl (by decide) rfl

end MediaAgent
